import Mathlib

/-!
Verification of the layout engine of the `gantt_chart` tool (`src/lib.rs`).

The development shallowly embeds `process_chart_data` and the dimension
computation of `render_chart`.  Modelling conventions:

* `chrono::NaiveDate` values are represented by their signed day number
  relative to 1970-01-01 (proleptic Gregorian).  Date comparison is integer
  comparison, `date + Duration::days(n)` is integer addition, and
  `(a - b).num_days()` is integer subtraction, exactly as for `NaiveDate`.
  `NaiveDate::from_ymd` is `toDays`, and the `year()` / `month()` / `day()`
  accessors go through `ofDays`.
* Rust `f32` quantities are idealised as rationals (`ℚ`); the formulas are
  carried over verbatim.
* The one effect in `process_chart_data` — drawing the initial hue from
  `rand::thread_rng()` — cannot be embedded; the hue is made an explicit
  parameter `initialHue` of `processChartData`.
-/

set_option maxHeartbeats 1600000

namespace GanttChart

/-! ## Calendar model (proleptic Gregorian, day numbers)

The shifted ("March-based") year `ys` of a date `y-m-d` is `y - 1` for
January and February and `y` otherwise; shifted year `ys` runs from
`ys-03-01` to `(ys+1)-02-28/29`.  `shiftedYearDays ys` counts the days from
the shifted epoch `0000-03-01` to the first day of shifted year `ys`; with
floor division this closed form is valid for all integers `ys`. -/

def shiftedYearDays (ys : Int) : Int := 365 * ys + ys / 4 - ys / 100 + ys / 400

/-- Month index inside the shifted year: March ↦ 0, …, December ↦ 9,
January ↦ 10, February ↦ 11. -/
def mpOf (m : Int) : Int := (m + 9) % 12

/-- Day number of the proleptic-Gregorian date `y-m-d`, with day 0 being
1970-01-01 (the epoch used by `chrono`); `(153 * mp + 2) / 5` is the day
of the shifted year on which month `mp` starts. -/
def toDays (y m d : Int) : Int :=
  shiftedYearDays (y - (if m ≤ 2 then 1 else 0)) + (153 * mpOf m + 2) / 5 + d - 1 - 719468

/-- Inverse of `toDays`: split the day number into a 400-year era and a day
of era, locate the shifted year by a guess-and-correct step, then read the
month and day off the day of the shifted year. -/
def ofDays (z : Int) : Int × Int × Int :=
  let zz := z + 719468
  let era := zz / 146097
  let rem := zz % 146097
  let g := rem / 365
  let yoe := if shiftedYearDays g ≤ rem then g else g - 1
  let doy := rem - shiftedYearDays yoe
  let mp := (5 * doy + 2) / 153
  let d := doy - (153 * mp + 2) / 5 + 1
  let m := if mp < 10 then mp + 3 else mp - 9
  (400 * era + yoe + (if 10 ≤ mp then 1 else 0), m, d)

/-- `NaiveDate::year()`. -/
def dateYear (z : Int) : Int := (ofDays z).1

/-- `NaiveDate::month()`. -/
def dateMonth (z : Int) : Int := (ofDays z).2.1

/-- `NaiveDate::day()`. -/
def dateDay (z : Int) : Int := (ofDays z).2.2

/-- Year component of the first day of the month after `(y, m)`, as computed
by the column loop of `process_chart_data` (src/lib.rs lines 297-301). -/
def nextMonthY (y m : Int) : Int := y + (if m = 12 then 1 else 0)

/-- Month component of the first day of the month after month `m`. -/
def nextMonthM (m : Int) : Int := m % 12 + 1

-- Sanity anchors for the calendar model.
theorem toDays_epoch : toDays 1970 1 1 = 0 := by decide

theorem ofDays_epoch : ofDays 0 = (1970, 1, 1) := by decide

theorem ofDays_leap_roundtrip : ofDays (toDays 2024 2 29) = (2024, 2, 29) := by decide

theorem ofDays_century_roundtrip : ofDays (toDays 1900 3 1 - 1) = (1900, 2, 28) := by decide

theorem shiftedYearDays_era (e r : Int) :
    shiftedYearDays (400 * e + r) = 146097 * e + shiftedYearDays r := by
  simp only [shiftedYearDays]
  omega

/-- Shifting the year by an era of 400 years shifts the day number by
146097 days. -/
theorem toDays_era (e y m d : Int) :
    toDays (400 * e + y) m d = 146097 * e + toDays y m d := by
  simp only [toDays]
  rw [show 400 * e + y - (if m ≤ 2 then (1 : Int) else 0) =
    400 * e + (y - if m ≤ 2 then (1 : Int) else 0) from by ring]
  rw [shiftedYearDays_era]
  ring

theorem nextMonthY_era (e y m : Int) :
    nextMonthY (400 * e + y) m = 400 * e + nextMonthY y m := by
  simp only [nextMonthY]
  ring

/-- Characterisation of the guess-and-correct step of `ofDays`: `yoe` is the
shifted year of era containing day-of-era `rem`. -/
theorem yoeSpec (rem g yoe : Int) (hg : g = rem / 365)
    (hyoe : yoe = if shiftedYearDays g ≤ rem then g else g - 1)
    (h0 : 0 ≤ rem) (h1 : rem ≤ 146096) :
    shiftedYearDays yoe ≤ rem ∧ rem < shiftedYearDays (yoe + 1) := by
  have hgb : 0 ≤ g ∧ g ≤ 400 := by omega
  simp only [shiftedYearDays] at hyoe ⊢
  obtain ⟨hga, hgbb⟩ := hgb
  interval_cases g <;> omega

/-- In-year part of the conversion: from the year sandwich, the month and
day produced by `ofDays` are in range, `toDays` reassembles the day number
of the era, and that day number precedes the next month's first day. -/
theorem inYearSpec (rem yoe doy mp d m : Int)
    (hs1 : shiftedYearDays yoe ≤ rem) (hs2 : rem < shiftedYearDays (yoe + 1))
    (hdoy : doy = rem - shiftedYearDays yoe)
    (hmp : mp = (5 * doy + 2) / 153)
    (hd : d = doy - (153 * mp + 2) / 5 + 1)
    (hm : m = if mp < 10 then mp + 3 else mp - 9) :
    1 ≤ m ∧ m ≤ 12 ∧ 1 ≤ d ∧ d ≤ 31 ∧
      toDays (yoe + (if 10 ≤ mp then 1 else 0)) m d = rem - 719468 ∧
      rem - 719468 <
        toDays (nextMonthY (yoe + (if 10 ≤ mp then 1 else 0)) m) (nextMonthM m) 1 := by
  have hdb : 0 ≤ doy ∧ doy ≤ 365 := by
    simp only [shiftedYearDays] at hs1 hs2 hdoy
    omega
  have hmpb : 0 ≤ mp ∧ mp ≤ 11 := by omega
  simp only [shiftedYearDays] at hs1 hs2 hdoy
  obtain ⟨hmp0, hmp1⟩ := hmpb
  interval_cases mp <;> norm_num at hm <;> subst hm <;>
    simp only [toDays, nextMonthY, nextMonthM, mpOf, shiftedYearDays] <;>
    split_ifs <;> omega

/-- Main characterisation of the calendar model: every day number `z` has
in-range month and day, `toDays` inverts `ofDays`, and `z` lies strictly
before the first day of the following month. -/
theorem ofDays_spec (z : Int) :
    1 ≤ dateMonth z ∧ dateMonth z ≤ 12 ∧ 1 ≤ dateDay z ∧ dateDay z ≤ 31 ∧
      toDays (dateYear z) (dateMonth z) (dateDay z) = z ∧
      z < toDays (nextMonthY (dateYear z) (dateMonth z)) (nextMonthM (dateMonth z)) 1 := by
  have hy := yoeSpec ((z + 719468) % 146097) ((z + 719468) % 146097 / 365) _ rfl rfl
    (by omega) (by omega)
  have hin := inYearSpec ((z + 719468) % 146097) _ _ _ _ _ hy.1 hy.2 rfl rfl rfl rfl
  obtain ⟨h1, h2, h3, h4, h5, h6⟩ := hin
  simp only [dateYear, dateMonth, dateDay, ofDays]
  refine ⟨h1, h2, h3, h4, ?_, ?_⟩
  · rw [show ∀ a b c : Int, 400 * a + b + c = 400 * a + (b + c) from fun a b c => by ring,
      toDays_era, h5]
    omega
  · rw [show ∀ a b c : Int, 400 * a + b + c = 400 * a + (b + c) from fun a b c => by ring,
      nextMonthY_era, toDays_era]
    linarith [h6, Int.emod_emod_of_dvd (z + 719468) (dvd_refl 146097),
      Int.ediv_add_emod (z + 719468) 146097]

/-! ## Data model (src/lib.rs lines 72-142)

Field names follow the Rust structs; `open` is a Lean keyword, so the
`open` field of `ItemData` / `RowRenderData` is called `openFlag`. -/

/-- `ItemData` (src/lib.rs lines 72-81); dates are day numbers. -/
structure ItemData where
  title : String
  duration : Option Int
  startDate : Option Int
  resourceIndex : Option Nat
  openFlag : Option Bool
  deriving DecidableEq

/-- `ChartData` (src/lib.rs lines 83-90). -/
structure ChartData where
  title : String
  markedDate : Option Int
  resources : List String
  items : List ItemData
  deriving DecidableEq

/-- `Gutter` (src/lib.rs lines 92-108). -/
structure Gutter where
  left : ℚ
  top : ℚ
  right : ℚ
  bottom : ℚ
  deriving DecidableEq

def Gutter.height (g : Gutter) : ℚ := g.bottom + g.top

def Gutter.width (g : Gutter) : ℚ := g.right + g.left

/-- `RowRenderData` (src/lib.rs lines 128-136).  `length = none` marks a
milestone. -/
structure RowRenderData where
  title : String
  resourceIndex : Nat
  offset : ℚ
  length : Option ℚ
  openFlag : Bool
  deriving DecidableEq

/-- `ColumnRenderData` (src/lib.rs lines 138-142). -/
structure ColumnRenderData where
  width : ℚ
  monthName : String
  deriving DecidableEq

/-- `RenderData` (src/lib.rs lines 110-126). -/
structure RenderData where
  title : String
  gutter : Gutter
  rowGutter : Gutter
  rowHeight : ℚ
  resourceGutter : Gutter
  resourceHeight : ℚ
  markedDateOffset : Option ℚ
  titleWidth : ℚ
  maxMonthWidth : ℚ
  rectCornerRadius : ℚ
  styles : List String
  cols : List ColumnRenderData
  rows : List RowRenderData
  resources : List String
  deriving DecidableEq

/-- The three error messages `process_chart_data` can produce
(src/lib.rs lines 247, 262, 265-267). -/
inductive ChartError where
  | missingFirstStart
  | resourceIndexOutOfRange
  | missingFirstResource
  deriving DecidableEq

instance {ε α : Type} [DecidableEq ε] [DecidableEq α] : DecidableEq (Except ε α)
  | .error a, .error b =>
      if h : a = b then isTrue (by rw [h]) else isFalse fun he => h (by cases he; rfl)
  | .error _, .ok _ => isFalse (by intro h; cases h)
  | .ok _, .error _ => isFalse (by intro h; cases h)
  | .ok a, .ok b =>
      if h : a = b then isTrue (by rw [h]) else isFalse fun he => h (by cases he; rfl)

/-- `NaiveDate::MAX` (December 31, 262142, within chrono's year range). -/
def naiveDateMax : Int := toDays 262142 12 31

/-- `NaiveDate::MIN` (January 1, -262143, within chrono's year range). -/
def naiveDateMin : Int := toDays (-262143) 1 1

/-! ## `process_chart_data` (src/lib.rs lines 212-421) -/

/-- `num_days_in_month` (src/lib.rs lines 218-229): the first day of the
next month is preceded by the last day of the original month. -/
def numDaysInMonth (year month : Int) : Int :=
  let p := if month = 12 then (year + 1, 1) else (year, month + 1)
  dateDay (toDays p.1 p.2 1 - 1)

/-- The body of the first loop of `process_chart_data`
(src/lib.rs lines 238-269) for the item at index `i`, acting on the state
`(startDate, endDate, date)`. -/
def resolveItem (nres : Nat) (i : Nat) (startDate endDate date : Int) (item : ItemData) :
    Except ChartError (Int × Int × Int) :=
  let afterStart : Int × Int → Except ChartError (Int × Int × Int) := fun (startDate, date) =>
    let date := match item.duration with
      | some itemDays => date + itemDays
      | none => date
    let endDate := if endDate < date then date else endDate
    match item.resourceIndex with
    | some r =>
        if r ≥ nres then .error .resourceIndexOutOfRange
        else .ok (startDate, endDate, date)
    | none =>
        if i = 0 then .error .missingFirstResource
        else .ok (startDate, endDate, date)
  match item.startDate with
  | some isd => afterStart ((if isd < startDate then isd else startDate), isd)
  | none =>
      if i = 0 then .error .missingFirstStart
      else afterStart (startDate, date)

/-- The first loop of `process_chart_data` (src/lib.rs lines 238-269). -/
def resolveLoop (nres : Nat) : Nat → Int → Int → Int → List ItemData →
    Except ChartError (Int × Int)
  | _, startDate, endDate, _, [] => .ok (startDate, endDate)
  | i, startDate, endDate, date, item :: rest =>
    match resolveItem nres i startDate endDate date item with
    | .error e => .error e
    | .ok (startDate, endDate, date) => resolveLoop nres (i + 1) startDate endDate date rest

/-- The date-range pass of `process_chart_data` before snapping: initial
state `start_date = MAX`, `end_date = MIN`, `date = MIN`
(src/lib.rs lines 233-269). -/
def resolveDates (cd : ChartData) : Except ChartError (Int × Int) :=
  resolveLoop cd.resources.length 0 naiveDateMax naiveDateMin naiveDateMin cd.items

/-- Snap of the start date (src/lib.rs line 271). -/
def snapStart (s : Int) : Int := toDays (dateYear s) (dateMonth s) 1

/-- Snap of the end date (src/lib.rs lines 272-276). -/
def snapEnd (e : Int) : Int :=
  toDays (dateYear e) (dateMonth e) (numDaysInMonth (dateYear e) (dateMonth e))

/-- `MONTH_NAMES` (src/lib.rs lines 18-20). -/
def monthNames : List String :=
  ["Jan", "Feb", "Mar", "Apr", "May", "Jun", "Jul", "Aug", "Sep", "Oct", "Nov", "Dec"]

/-- `MONTH_NAMES[month - 1]`; the index is in range for every date produced
by the calendar model. -/
def monthNameOf (m : Int) : String := monthNames.getD (m - 1).toNat ""

/-- The month-column loop of `process_chart_data`
(src/lib.rs lines 283-302), recorded as the list of `(year, month)` pairs
it visits; the loop variable walks the first days of months.  The guard is
`date <= end_date`, and the step is
`from_ymd(year + (month == 12), month % 12 + 1, 1)`. -/
def monthsWalk (endDate : Int) (date : Int) : List (Int × Int) :=
  if h : date ≤ endDate then
    (dateYear date, dateMonth date) ::
      monthsWalk endDate
        (toDays (dateYear date + (if dateMonth date = 12 then 1 else 0))
          (dateMonth date % 12 + 1) 1)
  else []
termination_by (endDate + 1 - date).toNat
decreasing_by
  have hs := (ofDays_spec date).2.2.2.2.2
  simp only [nextMonthY, nextMonthM] at hs
  show (endDate + 1 - toDays (dateYear date + (if dateMonth date = 12 then 1 else 0))
      (dateMonth date % 12 + 1) 1).toNat < (endDate + 1 - date).toNat
  generalize toDays (dateYear date + (if dateMonth date = 12 then 1 else 0))
    (dateMonth date % 12 + 1) 1 = T at hs ⊢
  omega

theorem monthsWalk_cons (endDate date : Int) (h : date ≤ endDate) :
    monthsWalk endDate date = (dateYear date, dateMonth date) ::
      monthsWalk endDate
        (toDays (dateYear date + (if dateMonth date = 12 then 1 else 0))
          (dateMonth date % 12 + 1) 1) := by
  rw [monthsWalk, dif_pos h]

theorem monthsWalk_nil (endDate date : Int) (h : ¬date ≤ endDate) :
    monthsWalk endDate date = [] := by
  rw [monthsWalk, dif_neg h]

/-- Months visited by the column loop for the unsnapped interval `(s, e)`. -/
def chartMonths (s e : Int) : List (Int × Int) := monthsWalk (snapEnd e) (snapStart s)

/-- Accumulator `num_item_days` of the column loop (src/lib.rs line 289),
expressed as a sum over the visited months. -/
def numItemDaysOf (s e : Int) : Int :=
  ((chartMonths s e).map fun p => numDaysInMonth p.1 p.2).sum

/-- Accumulator `all_items_width` of the column loop (src/lib.rs line 290),
expressed as a sum over the visited months;
`item_width = max_month_width * item_days / 31` (line 287). -/
def allItemsWidthOf (mw : ℚ) (s e : Int) : ℚ :=
  ((chartMonths s e).map fun p => mw * (numDaysInMonth p.1 p.2 : ℚ) / 31).sum

/-- The `cols` vector built by the column loop (src/lib.rs lines 292-295). -/
def colsOf (mw : ℚ) (s e : Int) : List ColumnRenderData :=
  (chartMonths s e).map fun p =>
    { width := mw * (numDaysInMonth p.1 p.2 : ℚ) / 31, monthName := monthNameOf p.2 }

/-- The row loop of `process_chart_data` (src/lib.rs lines 331-360), carrying
the cursor `date` and the current `resource_index` across items. -/
def rowsLoop (tw gutterLeft : ℚ) (startDate : Int) (numItemDays : Int)
    (allItemsWidth : ℚ) : Int → Nat → List ItemData → List RowRenderData
  | _, _, [] => []
  | date, resourceIndex, item :: rest =>
    let date1 := match item.startDate with
      | some isd => isd
      | none => date
    let offset := tw + gutterLeft +
      ((date1 - startDate : Int) : ℚ) / (numItemDays : ℚ) * allItemsWidth
    let date2 := match item.duration with
      | some itemDays => date1 + itemDays
      | none => date1
    let length : Option ℚ := match item.duration with
      | some itemDays => some ((itemDays : ℚ) / (numItemDays : ℚ) * allItemsWidth)
      | none => none
    let resourceIndex2 := match item.resourceIndex with
      | some r => r
      | none => resourceIndex
    { title := item.title, resourceIndex := resourceIndex2, offset := offset,
      length := length, openFlag := item.openFlag.getD false } ::
      rowsLoop tw gutterLeft startDate numItemDays allItemsWidth date2 resourceIndex2 rest

/-- Truncation toward zero, the semantics of Rust's `as u32` / `as usize`
casts from a nonnegative float (negative values saturate to 0). -/
def floatToNat (x : ℚ) : Nat := (max 0 ⌊x⌋).toNat

/-- `rgb` packing inside `hsv_to_rgb` (src/lib.rs lines 193-195). -/
def rgbPack (r g b : ℚ) : Nat :=
  (floatToNat (r * 256) <<< 16) ||| (floatToNat (g * 256) <<< 8) ||| floatToNat (b * 256)

/-- `hsv_to_rgb` (src/lib.rs lines 186-210), idealised over `ℚ`. -/
def hsvToRgb (h s v : ℚ) : Nat :=
  let hI := floatToNat (h * 6)
  let f := h * 6 - (hI : ℚ)
  let p := v * (1 - s)
  let q := v * (1 - f * s)
  let t := v * (1 - (1 - f) * s)
  if hI = 0 then rgbPack v t p
  else if hI = 1 then rgbPack q v p
  else if hI = 2 then rgbPack p v t
  else if hI = 3 then rgbPack p q v
  else if hI = 4 then rgbPack t p v
  else rgbPack v p q

/-- Lowercase hexadecimal, zero-padded to 6 digits (the `{:06x}` format). -/
def hex6 (n : Nat) : String :=
  let ds := Nat.toDigits 16 n
  String.mk (List.replicate (6 - ds.length) '0' ++ ds)

/-- `GOLDEN_RATIO_CONJUGATE` (src/lib.rs line 17), idealised as the decimal
literal written in the source. -/
def goldenRatioConjugate : ℚ := 0.618033988749895

/-- Truncation toward zero on `ℚ`. -/
def ratTrunc (x : ℚ) : Int := if x < 0 then ⌈x⌉ else ⌊x⌋

/-- Rust's `h % 1.0` (`f32` remainder, truncated toward zero). -/
def fmodOne (x : ℚ) : ℚ := x - ratTrunc x

/-- The per-resource color-style loop (src/lib.rs lines 390-403): `i` is the
resource index, `n` the number of resources left, `h` the current hue. -/
def colorStylesLoop : Nat → Nat → ℚ → List String
  | _, 0, _ => []
  | i, n + 1, h =>
    let rgb := hex6 (hsvToRgb h (1/2) (1/2))
    (".resource-" ++ toString i ++ "-closed\x7bfill:#" ++ rgb ++
        ";stroke-width:1;stroke:#" ++ rgb ++ ";\x7d") ::
      (".resource-" ++ toString i ++ "-open\x7bfill:none;stroke-width:2;stroke:#" ++ rgb ++
        ";\x7d") ::
      colorStylesLoop (i + 1) n (fmodOne (h + goldenRatioConjugate))

/-- The fixed style rules (src/lib.rs lines 374-384). -/
def baseStyles : List String :=
  [".outer-lines\x7bstroke-width:3;stroke:#aaaaaa;\x7d",
   ".inner-lines\x7bstroke-width:2;stroke:#dddddd;\x7d",
   ".item\x7bfont-family:Arial;font-size:12pt;dominant-baseline:middle;\x7d",
   ".resource\x7bfont-family:Arial;font-size:12pt;text-anchor:end;dominant-baseline:middle;\x7d",
   ".title\x7bfont-family:Arial;font-size:18pt;\x7d",
   ".heading\x7bfont-family:Arial;font-size:16pt;dominant-baseline:middle;text-anchor:middle;\x7d",
   ".task-heading\x7bdominant-baseline:middle;text-anchor:start;\x7d",
   ".milestone\x7bfill:black;stroke-width:1;stroke:black;\x7d",
   ".marker\x7bstroke-width:2;stroke:#888888;stroke-dasharray:7;\x7d"]

/-- `process_chart_data` (src/lib.rs lines 212-421).  `initialHue` stands for
the value drawn from `rand::thread_rng()` at line 388 — the only effect of
the function; everything else is the source computation over the idealised
numerics.  The column-loop accumulators are expressed as sums over the
visited months (`numItemDaysOf`, `allItemsWidthOf`, `colsOf`). -/
def processChartData (titleWidth maxMonthWidth initialHue : ℚ) (cd : ChartData) :
    Except ChartError RenderData :=
  match resolveDates cd with
  | .error e => .error e
  | .ok (startDate0, endDate0) =>
    let startDate := snapStart startDate0
    let cols := colsOf maxMonthWidth startDate0 endDate0
    let numItemDays := numItemDaysOf startDate0 endDate0
    let allItemsWidth := allItemsWidthOf maxMonthWidth startDate0 endDate0
    let gutter : Gutter := { left := 10, top := 80, right := 10, bottom := 10 }
    let rowGutter : Gutter := { left := 5, top := 5, right := 5, bottom := 5 }
    let rowHeight : ℚ := rowGutter.height + 20
    let resourceGutter : Gutter := { left := 10, top := 10, right := 10, bottom := 10 }
    let resourceHeight : ℚ := resourceGutter.height + 20
    let rows := rowsLoop titleWidth gutter.left startDate numItemDays allItemsWidth
      startDate 0 cd.items
    let markedDateOffset : Option ℚ := match cd.markedDate with
      | some date => some (titleWidth + gutter.left +
          ((date - startDate : Int) : ℚ) / (numItemDays : ℚ) * allItemsWidth)
      | none => none
    let styles := baseStyles ++ colorStylesLoop 0 cd.resources.length initialHue
    .ok { title := cd.title, gutter := gutter, rowGutter := rowGutter,
          rowHeight := rowHeight, resourceGutter := resourceGutter,
          resourceHeight := resourceHeight, markedDateOffset := markedDateOffset,
          titleWidth := titleWidth, maxMonthWidth := maxMonthWidth,
          rectCornerRadius := 3, styles := styles, cols := cols, rows := rows,
          resources := cd.resources }

/-- The `width` and `height` computed at the start of `render_chart`
(src/lib.rs lines 428-439) and placed on the `<svg>` element. -/
def renderDims (addResourceTable : Bool) (rd : RenderData) : ℚ × ℚ :=
  (rd.gutter.left + rd.titleWidth + (rd.cols.map fun col => col.width).sum + rd.gutter.right,
   rd.gutter.top + (rd.rows.length : ℚ) * rd.rowHeight +
     (if addResourceTable then rd.resourceGutter.height + rd.rowHeight else 0) +
     rd.gutter.bottom)

/-! ## Calendar consequences used by the layout proofs -/

theorem toDays_day (y m d : Int) : toDays y m d = toDays y m 1 + d - 1 := by
  simp only [toDays]
  ring

/-- The length of a month — the distance between consecutive month firsts —
is between 28 and 31 days. -/
theorem monthLen_bounds (y m : Int) (h1 : 1 ≤ m) (h2 : m ≤ 12) :
    28 ≤ toDays (nextMonthY y m) (nextMonthM m) 1 - toDays y m 1 ∧
      toDays (nextMonthY y m) (nextMonthM m) 1 - toDays y m 1 ≤ 31 := by
  simp only [toDays, nextMonthY, nextMonthM, mpOf, shiftedYearDays]
  interval_cases m <;> split_ifs <;> omega

/-- Month firsts are strictly ordered by the lexicographic order on
`(year, month)`. -/
theorem monthStart_lt (y m Y M : Int) (hm1 : 1 ≤ m) (hm2 : m ≤ 12)
    (hM1 : 1 ≤ M) (hM2 : M ≤ 12) (hlex : y < Y ∨ (y = Y ∧ m < M)) :
    toDays y m 1 < toDays Y M 1 := by
  simp only [toDays, mpOf, shiftedYearDays]
  interval_cases m <;> interval_cases M <;> split_ifs <;> omega

theorem monthStart_le (y m Y M : Int) (hm1 : 1 ≤ m) (hm2 : m ≤ 12)
    (hM1 : 1 ≤ M) (hM2 : M ≤ 12) (hlex : y < Y ∨ (y = Y ∧ m ≤ M)) :
    toDays y m 1 ≤ toDays Y M 1 := by
  rcases hlex with h | ⟨h, hm⟩
  · exact le_of_lt (monthStart_lt y m Y M hm1 hm2 hM1 hM2 (Or.inl h))
  · rcases lt_or_eq_of_le hm with h2 | h2
    · exact le_of_lt (monthStart_lt y m Y M hm1 hm2 hM1 hM2 (Or.inr ⟨h, h2⟩))
    · subst h h2
      exact le_refl _

theorem nextMonth_bounds (m : Int) (h1 : 1 ≤ m) (h2 : m ≤ 12) :
    1 ≤ nextMonthM m ∧ nextMonthM m ≤ 12 := by
  simp only [nextMonthM]
  omega

/-- A month first is strictly before the next month's first. -/
theorem monthStart_lt_next (y m : Int) (h1 : 1 ≤ m) (h2 : m ≤ 12) :
    toDays y m 1 < toDays (nextMonthY y m) (nextMonthM m) 1 := by
  have := monthLen_bounds y m h1 h2
  omega

/-- If the pair `(y, m)` is lexicographically before `(Y, M)`, the month
after `(y, m)` is at most `(Y, M)`. -/
theorem nextMonth_le_of_lt (y m Y M : Int) (hm1 : 1 ≤ m) (hm2 : m ≤ 12)
    (hM1 : 1 ≤ M) (hM2 : M ≤ 12) (hlex : y < Y ∨ (y = Y ∧ m < M)) :
    nextMonthY y m < Y ∨ (nextMonthY y m = Y ∧ nextMonthM m ≤ M) := by
  simp only [nextMonthY, nextMonthM]
  split_ifs <;> omega

/-- Uniqueness of the month sandwich: a day number between the first of
month `(y, m)` and the first of the following month has year `y`, month `m`
and day offset `z - toDays y m 1 + 1`. -/
theorem month_sandwich (y m z : Int) (hm1 : 1 ≤ m) (hm2 : m ≤ 12)
    (h1 : toDays y m 1 ≤ z)
    (h2 : z < toDays (nextMonthY y m) (nextMonthM m) 1) :
    dateYear z = y ∧ dateMonth z = m ∧ dateDay z = z - toDays y m 1 + 1 := by
  obtain ⟨hb1, hb2, hb3, hb4, hround, hnext⟩ := ofDays_spec z
  have hms : toDays (dateYear z) (dateMonth z) 1 ≤ z := by
    have := toDays_day (dateYear z) (dateMonth z) (dateDay z)
    omega
  have hYM : dateYear z = y ∧ dateMonth z = m := by
    by_contra hne
    have htri : (dateYear z < y ∨ (dateYear z = y ∧ dateMonth z < m)) ∨
        (y < dateYear z ∨ (y = dateYear z ∧ m < dateMonth z)) := by
      omega
    rcases htri with hlt | hlt
    · -- the month of `z` would end no later than the first of `(y, m)`
      have hstep := nextMonth_le_of_lt (dateYear z) (dateMonth z) y m hb1 hb2 hm1 hm2 hlt
      have hle : toDays (nextMonthY (dateYear z) (dateMonth z))
          (nextMonthM (dateMonth z)) 1 ≤ toDays y m 1 := by
        have hnb := nextMonth_bounds (dateMonth z) hb1 hb2
        exact monthStart_le _ _ _ _ hnb.1 hnb.2 hm1 hm2 hstep
      omega
    · -- the month `(y, m)` would end no later than the month of `z`
      have hstep := nextMonth_le_of_lt y m (dateYear z) (dateMonth z) hm1 hm2 hb1 hb2 hlt
      have hle : toDays (nextMonthY y m) (nextMonthM m) 1 ≤
          toDays (dateYear z) (dateMonth z) 1 := by
        have hnb := nextMonth_bounds m hm1 hm2
        exact monthStart_le _ _ _ _ hnb.1 hnb.2 hb1 hb2 hstep
      omega
  obtain ⟨hYy, hMm⟩ := hYM
  refine ⟨hYy, hMm, ?_⟩
  have hday := toDays_day (dateYear z) (dateMonth z) (dateDay z)
  rw [hYy, hMm] at hday hround
  omega

/-- Round trip for month firsts. -/
theorem ofDays_monthStart (y m : Int) (h1 : 1 ≤ m) (h2 : m ≤ 12) :
    dateYear (toDays y m 1) = y ∧ dateMonth (toDays y m 1) = m ∧
      dateDay (toDays y m 1) = 1 := by
  have hs := month_sandwich y m (toDays y m 1) h1 h2 (le_refl _)
    (monthStart_lt_next y m h1 h2)
  have := hs.2.2
  exact ⟨hs.1, hs.2.1, by omega⟩

/-- `num_days_in_month` computes the distance between consecutive month
firsts. -/
theorem numDaysInMonth_eq (y m : Int) (h1 : 1 ≤ m) (h2 : m ≤ 12) :
    numDaysInMonth y m = toDays (nextMonthY y m) (nextMonthM m) 1 - toDays y m 1 := by
  have hpair : ((if m = 12 then (y + 1, 1) else (y, m + 1)) : Int × Int) =
      (nextMonthY y m, nextMonthM m) := by
    simp only [nextMonthY, nextMonthM]
    split_ifs with h
    · subst h
      norm_num
    · have : m % 12 = m := by omega
      rw [this]
      norm_num
  have hs := month_sandwich y m (toDays (nextMonthY y m) (nextMonthM m) 1 - 1) h1 h2
    (by have := monthLen_bounds y m h1 h2; omega)
    (by omega)
  simp only [numDaysInMonth, hpair]
  omega

/-- `num_days_in_month` is between 28 and 31 for real months. -/
theorem numDaysInMonth_bounds (y m : Int) (h1 : 1 ≤ m) (h2 : m ≤ 12) :
    28 ≤ numDaysInMonth y m ∧ numDaysInMonth y m ≤ 31 := by
  have := numDaysInMonth_eq y m h1 h2
  have := monthLen_bounds y m h1 h2
  omega

/-- Snapping moves the start date back to the first of its month. -/
theorem snapStart_le (z : Int) : snapStart z ≤ z := by
  obtain ⟨hb1, hb2, _, _, hround, _⟩ := ofDays_spec z
  have := toDays_day (dateYear z) (dateMonth z) (dateDay z)
  simp only [snapStart]
  omega

/-- Snapping moves the end date forward to the last day of its month. -/
theorem le_snapEnd (z : Int) : z ≤ snapEnd z := by
  obtain ⟨hb1, hb2, _, _, hround, hnext⟩ := ofDays_spec z
  have hnd := numDaysInMonth_eq (dateYear z) (dateMonth z) hb1 hb2
  have := toDays_day (dateYear z) (dateMonth z) (dateDay z)
  have := toDays_day (dateYear z) (dateMonth z) (numDaysInMonth (dateYear z) (dateMonth z))
  simp only [snapEnd]
  omega

/-! ## Spec-level definitions

These definitions follow the wording of the specification; they are compared
with the embedded source functions by the claim theorems. -/

/-- Spec §4.3: the list of `n` consecutive calendar months starting at
`(y, m)`, the year rolling over after December. -/
def monthsRange : Int → Int → Nat → List (Int × Int)
  | _, _, 0 => []
  | y, m, n + 1 => (y, m) :: monthsRange (nextMonthY y m) (nextMonthM m) n

/-- Number of calendar months from `(ys, ms)` to `(ye, me)` inclusive. -/
def monthCount (ys ms ye me : Int) : Nat := (12 * (ye - ys) + me - ms + 1).toNat

/-- The embedded column loop visits exactly the months from `(ys, ms)` to
`(ye, me)` inclusive, provided the end day is a real day of its month. -/
theorem monthsWalk_eq_range (ye me de : Int) (hme : 1 ≤ me) (hme2 : me ≤ 12)
    (hde1 : 1 ≤ de)
    (hde2 : de ≤ toDays (nextMonthY ye me) (nextMonthM me) 1 - toDays ye me 1) :
    ∀ (n : Nat) (ys ms : Int), 1 ≤ ms → ms ≤ 12 → monthCount ys ms ye me = n →
      monthsWalk (toDays ye me de) (toDays ys ms 1) = monthsRange ys ms n := by
  intro n
  induction n with
  | zero =>
    intro ys ms hms hms2 hn
    have hlex : ye < ys ∨ (ye = ys ∧ me < ms) := by
      simp only [monthCount] at hn
      omega
    have hstep := nextMonth_le_of_lt ye me ys ms hme hme2 hms hms2 hlex
    have hnb := nextMonth_bounds me hme hme2
    have hle := monthStart_le (nextMonthY ye me) (nextMonthM me) ys ms hnb.1 hnb.2
      hms hms2 hstep
    have hdd := toDays_day ye me de
    rw [monthsWalk_nil, monthsRange]
    omega
  | succ n ih =>
    intro ys ms hms hms2 hn
    have hlex : ys < ye ∨ (ys = ye ∧ ms ≤ me) := by
      simp only [monthCount] at hn
      omega
    have hguard : toDays ys ms 1 ≤ toDays ye me de := by
      have := monthStart_le ys ms ye me hms hms2 hme hme2 hlex
      have hdd := toDays_day ye me de
      omega
    obtain ⟨hY, hM, _⟩ := ofDays_monthStart ys ms hms hms2
    rw [monthsWalk_cons _ _ hguard, hY, hM]
    have hnb := nextMonth_bounds ms hms hms2
    have ihh := ih (nextMonthY ys ms) (nextMonthM ms) hnb.1 hnb.2
      (by simp only [monthCount, nextMonthY, nextMonthM] at hn ⊢; split_ifs <;> omega)
    simp only [nextMonthY, nextMonthM] at ihh
    rw [ihh, monthsRange]
    simp only [nextMonthY, nextMonthM]

/-- Declared start dates of the items, in order. -/
def declaredStarts (items : List ItemData) : List Int :=
  items.filterMap fun item => item.startDate

/-- Spec §4.2: the cursor position after each item — the declared start (or
the carried cursor) plus the item's duration when present — starting from
carried cursor `d`. -/
def cursorsFrom (d : Int) : List ItemData → List Int
  | [] => []
  | item :: rest =>
    let d1 := match item.startDate with
      | some isd => isd
      | none => d
    let d2 := match item.duration with
      | some n => d1 + n
      | none => d1
    d2 :: cursorsFrom d2 rest

/-- Spec §3: the first item must declare both `startDate` and
`resourceIndex` (vacuous for the empty list). -/
def FirstItemOk : List ItemData → Prop
  | [] => True
  | item :: _ => item.startDate.isSome = true ∧ item.resourceIndex.isSome = true

instance : (items : List ItemData) → Decidable (FirstItemOk items)
  | [] => .isTrue trivial
  | _ :: _ => inferInstanceAs (Decidable (_ ∧ _))

def decResourceAux (nres : Nat) : (o : Option Nat) → Decidable (∀ r, o = some r → r < nres)
  | none => .isTrue fun _ hr => Option.noConfusion hr
  | some r =>
      if hr : r < nres then
        .isTrue fun r2 hr2 => by
          cases hr2
          exact hr
      else .isFalse fun hall => hr (hall r rfl)

instance (nres : Nat) (item : ItemData) :
    Decidable (∀ r, item.resourceIndex = some r → r < nres) :=
  decResourceAux nres item.resourceIndex

/-- Spec §3: every declared resource index is in range. -/
def ResourcesOk (nres : Nat) (items : List ItemData) : Prop :=
  ∀ item ∈ items, ∀ r, item.resourceIndex = some r → r < nres

instance (nres : Nat) (items : List ItemData) : Decidable (ResourcesOk nres items) :=
  List.decidableBAll _ items

/-- A valid item list: the first item declares a start date and a resource
index, and all declared resource indices are in range. -/
def ValidItems (nres : Nat) (items : List ItemData) : Prop :=
  FirstItemOk items ∧ ResourcesOk nres items

instance (nres : Nat) (items : List ItemData) : Decidable (ValidItems nres items) :=
  inferInstanceAs (Decidable (_ ∧ _))

/-- All dates reached by the date-range resolver are representable as
`chrono::NaiveDate`s: declared starts are at most `NaiveDate::MAX`, and
cursor positions at least `NaiveDate::MIN`.  (In Rust this is guaranteed by
the `NaiveDate` type and by `Date + Duration` panicking on overflow; a chart
for which the tool returns a layout satisfies it.) -/
def DatesInRange (items : List ItemData) : Prop :=
  (∀ s ∈ declaredStarts items, s ≤ naiveDateMax) ∧
    ∀ c ∈ cursorsFrom naiveDateMin items, naiveDateMin ≤ c

instance (items : List ItemData) : Decidable (DatesInRange items) :=
  inferInstanceAs (Decidable (_ ∧ _))

/-- Spec §4.4, as quoted by claim C1: the row layouter carries a cursor date
and a current resource index; a declared `startDate` replaces the cursor,
`xOffset = titleWidth + leftGutter + (cursor - startDate).days / totalDays *
totalWidth`, a present duration yields the bar length and advances the
cursor by that many days, and a present `resourceIndex` replaces the carried
index; the row is emitted with the resulting values. -/
def rowsSpec (titleWidth leftGutter : ℚ) (startDate totalDays : Int) (totalWidth : ℚ) :
    Int → Nat → List ItemData → List RowRenderData
  | _, _, [] => []
  | cursor, currentResourceIndex, item :: rest =>
    let cursor1 := match item.startDate with
      | some isd => isd
      | none => cursor
    let xOffset := titleWidth + leftGutter +
      ((cursor1 - startDate : Int) : ℚ) / (totalDays : ℚ) * totalWidth
    let length : Option ℚ := match item.duration with
      | some n => some ((n : ℚ) / (totalDays : ℚ) * totalWidth)
      | none => none
    let cursor2 := match item.duration with
      | some n => cursor1 + n
      | none => cursor1
    let currentResourceIndex2 := match item.resourceIndex with
      | some r => r
      | none => currentResourceIndex
    { title := item.title, resourceIndex := currentResourceIndex2, offset := xOffset,
      length := length, openFlag := item.openFlag.getD false } ::
      rowsSpec titleWidth leftGutter startDate totalDays totalWidth cursor2
        currentResourceIndex2 rest

/-! ## Characterisation of the date-range resolver -/

/-- Past the first item, an error-free run of the resolver loop folds the
running minimum of the declared starts and the running maximum of the cursor
positions. -/
theorem resolveLoop_ok (nres : Nat) :
    ∀ (items : List ItemData) (i : Nat) (s0 e0 d0 : Int), i ≠ 0 →
      ResourcesOk nres items →
      resolveLoop nres i s0 e0 d0 items =
        .ok ((declaredStarts items).foldl (fun a b => if b < a then b else a) s0,
          (cursorsFrom d0 items).foldl (fun a b => if a < b then b else a) e0)
  | [], _, _, _, _, _, _ => by
      simp [resolveLoop, declaredStarts, cursorsFrom]
  | item :: rest, i, s0, e0, d0, hi, hok => by
      have hhead : ∀ r, item.resourceIndex = some r → r < nres :=
        hok item (List.mem_cons_self item rest)
      have htail : ResourcesOk nres rest := fun it hit =>
        hok it (List.mem_cons_of_mem _ hit)
      have ih : ∀ s e d, resolveLoop nres (i + 1) s e d rest =
          .ok ((declaredStarts rest).foldl (fun a b => if b < a then b else a) s,
            (cursorsFrom d rest).foldl (fun a b => if a < b then b else a) e) :=
        fun s e d => resolveLoop_ok nres rest (i + 1) s e d (by omega) htail
      rcases hr : item.resourceIndex with _ | r
      · rcases hs : item.startDate with _ | sd <;>
          rcases hd : item.duration with _ | du <;>
            simp [resolveLoop, resolveItem, hs, hr, hd, hi, ih, declaredStarts, cursorsFrom]
      · have hlt : ¬r ≥ nres := by
          have := hhead r hr
          omega
        rcases hs : item.startDate with _ | sd <;>
          rcases hd : item.duration with _ | du <;>
            simp [resolveLoop, resolveItem, hs, hr, hd, hi, hlt, ih, declaredStarts,
              cursorsFrom]

/-- Past the first item, an out-of-range declared resource index makes the
resolver loop fail with the out-of-range error. -/
theorem resolveLoop_err (nres : Nat) :
    ∀ (items : List ItemData) (i : Nat) (s0 e0 d0 : Int), i ≠ 0 →
      ¬ResourcesOk nres items →
      resolveLoop nres i s0 e0 d0 items = .error .resourceIndexOutOfRange
  | [], _, _, _, _, _, hbad => by
      exact absurd (fun it hit => absurd hit (List.not_mem_nil it)) hbad
  | item :: rest, i, s0, e0, d0, hi, hbad => by
      by_cases hhead : ∀ r, item.resourceIndex = some r → r < nres
      · have htail : ¬ResourcesOk nres rest := by
          intro hok
          exact hbad fun it hit => by
            rcases List.mem_cons.mp hit with h | h
            · subst h
              exact hhead
            · exact hok it h
        have ih : ∀ s e d, resolveLoop nres (i + 1) s e d rest =
            .error .resourceIndexOutOfRange :=
          fun s e d => resolveLoop_err nres rest (i + 1) s e d (by omega) htail
        rcases hr : item.resourceIndex with _ | r
        · rcases hs : item.startDate with _ | sd <;>
            rcases hd : item.duration with _ | du <;>
              simp [resolveLoop, resolveItem, hs, hr, hd, hi, ih]
        · have hlt : ¬r ≥ nres := by
            have := hhead r hr
            omega
          rcases hs : item.startDate with _ | sd <;>
            rcases hd : item.duration with _ | du <;>
              simp [resolveLoop, resolveItem, hs, hr, hd, hi, hlt, ih]
      · push_neg at hhead
        obtain ⟨r, hr, hge⟩ := hhead
        have hge2 : r ≥ nres := by omega
        rcases hs : item.startDate with _ | sd <;>
          rcases hd : item.duration with _ | du <;>
            simp [resolveLoop, resolveItem, hs, hr, hd, hi, hge2]

/-- Negation of `ResourcesOk` as an existential. -/
theorem not_resourcesOk_iff (nres : Nat) (items : List ItemData) :
    ¬ResourcesOk nres items ↔
      ∃ item ∈ items, ∃ r, item.resourceIndex = some r ∧ nres ≤ r := by
  unfold ResourcesOk
  push_neg
  constructor
  · rintro ⟨item, hmem, r, hr, hge⟩
    exact ⟨item, hmem, r, hr, hge⟩
  · rintro ⟨item, hmem, r, hr, hge⟩
    exact ⟨item, hmem, r, hr, hge⟩

/-- `process_chart_data` fails exactly when the date-range pass fails, with
the same error. -/
theorem processChartData_error_iff (tw mw hq : ℚ) (cd : ChartData) (e : ChartError) :
    processChartData tw mw hq cd = .error e ↔ resolveDates cd = .error e := by
  cases hres : resolveDates cd with
  | error e2 => simp [processChartData, hres]
  | ok p =>
      obtain ⟨s, e2⟩ := p
      simp [processChartData, hres]

/-- `process_chart_data` succeeds exactly when the date-range pass does. -/
theorem processChartData_ok_iff (tw mw hq : ℚ) (cd : ChartData) :
    (∃ rd, processChartData tw mw hq cd = .ok rd) ↔
      ∃ p, resolveDates cd = .ok p := by
  cases hres : resolveDates cd with
  | error e2 =>
      simp [processChartData, hres]
  | ok p =>
      obtain ⟨s, e2⟩ := p
      simp [processChartData, hres]

/-- The fields of the `RenderData` produced by `process_chart_data` when the
date-range pass returns `(s, e)`. -/
theorem processChartData_fields (tw mw hq : ℚ) (cd : ChartData) (s e : Int) (rd : RenderData)
    (hres : resolveDates cd = .ok (s, e))
    (hrd : processChartData tw mw hq cd = .ok rd) :
    rd.title = cd.title ∧
      rd.gutter = ⟨10, 80, 10, 10⟩ ∧
      rd.rowGutter = ⟨5, 5, 5, 5⟩ ∧
      rd.rowHeight = 30 ∧
      rd.resourceGutter = ⟨10, 10, 10, 10⟩ ∧
      rd.resourceHeight = 40 ∧
      rd.markedDateOffset = (cd.markedDate.map fun date =>
        tw + 10 + ((date - snapStart s : Int) : ℚ) /
          ((numItemDaysOf s e : Int) : ℚ) * allItemsWidthOf mw s e) ∧
      rd.titleWidth = tw ∧
      rd.maxMonthWidth = mw ∧
      rd.rectCornerRadius = 3 ∧
      rd.styles = baseStyles ++ colorStylesLoop 0 cd.resources.length hq ∧
      rd.cols = colsOf mw s e ∧
      rd.rows = rowsLoop tw 10 (snapStart s) (numItemDaysOf s e)
        (allItemsWidthOf mw s e) (snapStart s) 0 cd.items ∧
      rd.resources = cd.resources := by
  rw [processChartData, hres] at hrd
  cases hrd
  refine ⟨rfl, rfl, rfl, by norm_num [Gutter.height], rfl, by norm_num [Gutter.height],
    ?_, rfl, rfl, rfl, rfl, rfl, ?_, rfl⟩
  · cases cd.markedDate <;> simp [Gutter.height]
  · norm_num [Gutter.height]

/-! ## Fold and list lemmas -/

/-- The running minimum computed by the resolver over declared start dates. -/
theorem foldl_min_spec : ∀ (l : List Int) (a : Int),
    (l.foldl (fun a b => if b < a then b else a) a = a ∨
      l.foldl (fun a b => if b < a then b else a) a ∈ l) ∧
      l.foldl (fun a b => if b < a then b else a) a ≤ a ∧
      ∀ x ∈ l, l.foldl (fun a b => if b < a then b else a) a ≤ x
  | [], a => by simp
  | b :: l, a => by
      simp only [List.foldl_cons, List.mem_cons]
      by_cases hc : b < a
      · rw [if_pos hc]
        obtain ⟨ih1, ih2, ih3⟩ := foldl_min_spec l b
        refine ⟨?_, by omega, ?_⟩
        · rcases ih1 with h | h
          · exact Or.inr (Or.inl h)
          · exact Or.inr (Or.inr h)
        · intro x hx
          rcases hx with rfl | hx
          · omega
          · exact ih3 x hx
      · rw [if_neg hc]
        obtain ⟨ih1, ih2, ih3⟩ := foldl_min_spec l a
        refine ⟨?_, by omega, ?_⟩
        · rcases ih1 with h | h
          · exact Or.inl h
          · exact Or.inr (Or.inr h)
        · intro x hx
          rcases hx with rfl | hx
          · omega
          · exact ih3 x hx

/-- The running maximum computed by the resolver over cursor positions. -/
theorem foldl_max_spec : ∀ (l : List Int) (a : Int),
    (l.foldl (fun a b => if a < b then b else a) a = a ∨
      l.foldl (fun a b => if a < b then b else a) a ∈ l) ∧
      a ≤ l.foldl (fun a b => if a < b then b else a) a ∧
      ∀ x ∈ l, x ≤ l.foldl (fun a b => if a < b then b else a) a
  | [], a => by simp
  | b :: l, a => by
      simp only [List.foldl_cons, List.mem_cons]
      by_cases hc : a < b
      · rw [if_pos hc]
        obtain ⟨ih1, ih2, ih3⟩ := foldl_max_spec l b
        refine ⟨?_, by omega, ?_⟩
        · rcases ih1 with h | h
          · exact Or.inr (Or.inl h)
          · exact Or.inr (Or.inr h)
        · intro x hx
          rcases hx with rfl | hx
          · omega
          · exact ih3 x hx
      · rw [if_neg hc]
        obtain ⟨ih1, ih2, ih3⟩ := foldl_max_spec l a
        refine ⟨?_, by omega, ?_⟩
        · rcases ih1 with h | h
          · exact Or.inl h
          · exact Or.inr (Or.inr h)
        · intro x hx
          rcases hx with rfl | hx
          · omega
          · exact ih3 x hx

/-- With valid items the date-range pass returns the fold of the running
minimum of declared starts from `NaiveDate::MAX` and the fold of the running
maximum of cursor positions from `NaiveDate::MIN`. -/
theorem resolveDates_ok_char (cd : ChartData)
    (hv : ValidItems cd.resources.length cd.items) :
    resolveDates cd =
      .ok ((declaredStarts cd.items).foldl (fun a b => if b < a then b else a) naiveDateMax,
        (cursorsFrom naiveDateMin cd.items).foldl (fun a b => if a < b then b else a)
          naiveDateMin) := by
  obtain ⟨hfirst, hrok⟩ := hv
  cases hitems : cd.items with
  | nil => simp [resolveDates, hitems, resolveLoop, declaredStarts, cursorsFrom]
  | cons first rest =>
      rw [hitems] at hfirst hrok
      obtain ⟨hs1, hr1⟩ := hfirst
      rw [Option.isSome_iff_exists] at hs1 hr1
      obtain ⟨sd, hsd⟩ := hs1
      obtain ⟨r, hrr⟩ := hr1
      have hlt : ¬r ≥ cd.resources.length := by
        have := hrok first (List.mem_cons_self first rest) r hrr
        omega
      have htail : ResourcesOk cd.resources.length rest := fun it hit =>
        hrok it (List.mem_cons_of_mem _ hit)
      have hloop := fun s e d =>
        resolveLoop_ok cd.resources.length rest 1 s e d (by omega) htail
      cases hd : first.duration with
      | none =>
          simp [resolveDates, hitems, resolveLoop, resolveItem, hsd, hrr, hd, hlt,
            hloop, declaredStarts, cursorsFrom]
      | some du =>
          simp [resolveDates, hitems, resolveLoop, resolveItem, hsd, hrr, hd, hlt,
            hloop, declaredStarts, cursorsFrom]

/-- With valid items the layout never fails. -/
theorem resolveDates_isOk (cd : ChartData)
    (hv : ValidItems cd.resources.length cd.items) :
    ∃ s e, resolveDates cd = .ok (s, e) :=
  ⟨_, _, resolveDates_ok_char cd hv⟩

/-- The `rows` emitted by the row loop match the items pointwise: same title,
the bar length is the duration scaled by `totalWidth / totalDays`, and the
open flag defaults to `false`. -/
theorem rowsLoop_forall₂ (tw lg : ℚ) (sd td : Int) (tww : ℚ) :
    ∀ (items : List ItemData) (d : Int) (ri : Nat),
      List.Forall₂ (fun item row =>
        row.title = item.title ∧
          row.length = item.duration.map (fun n => (n : ℚ) / ((td : Int) : ℚ) * tww) ∧
          row.openFlag = item.openFlag.getD false) items
        (rowsLoop tw lg sd td tww d ri items)
  | [], _, _ => List.Forall₂.nil
  | item :: rest, d, ri => by
      simp only [rowsLoop]
      refine List.Forall₂.cons ⟨rfl, ?_, rfl⟩ (rowsLoop_forall₂ tw lg sd td tww rest _ _)
      cases hd : item.duration <;> simp [hd]

/-- The row loop emits one row per item. -/
theorem rowsLoop_length (tw lg : ℚ) (sd td : Int) (tww : ℚ)
    (items : List ItemData) (d : Int) (ri : Nat) :
    (rowsLoop tw lg sd td tww d ri items).length = items.length :=
  (List.Forall₂.length_eq (rowsLoop_forall₂ tw lg sd td tww items d ri)).symm

/-- The embedded row loop computes exactly the spec's row state machine. -/
theorem rowsLoop_eq_rowsSpec (tw lg : ℚ) (sd td : Int) (tww : ℚ) :
    ∀ (items : List ItemData) (d : Int) (ri : Nat),
      rowsLoop tw lg sd td tww d ri items = rowsSpec tw lg sd td tww d ri items
  | [], _, _ => rfl
  | item :: rest, d, ri => by
      simp only [rowsLoop, rowsSpec]
      rw [rowsLoop_eq_rowsSpec tw lg sd td tww rest _ _]

/-- Months listed by `monthsRange` have month components in `1..12`. -/
theorem monthsRange_month_bounds :
    ∀ (n : Nat) (y m : Int), 1 ≤ m → m ≤ 12 →
      ∀ p ∈ monthsRange y m n, 1 ≤ p.2 ∧ p.2 ≤ 12
  | 0, _, _, _, _ => by simp [monthsRange]
  | n + 1, y, m, h1, h2 => by
      intro p hp
      rcases List.mem_cons.mp hp with rfl | hp
      · exact ⟨h1, h2⟩
      · have hnb := nextMonth_bounds m h1 h2
        exact monthsRange_month_bounds n (nextMonthY y m) (nextMonthM m) hnb.1 hnb.2 p hp

/-- Every declared start is dominated by some cursor position, provided the
durations are nonnegative. -/
theorem declared_le_cursor :
    ∀ (items : List ItemData) (d : Int),
      (∀ item ∈ items, ∀ n, item.duration = some n → 0 ≤ n) →
      ∀ s ∈ declaredStarts items, ∃ c ∈ cursorsFrom d items, s ≤ c
  | [], _, _, s, hs => by simp [declaredStarts] at hs
  | item :: rest, d, hnn, s, hs => by
      have hnnrest : ∀ it ∈ rest, ∀ n, it.duration = some n → 0 ≤ n := fun it hit =>
        hnn it (List.mem_cons_of_mem _ hit)
      rcases hsd : item.startDate with _ | sd
      · have hs2 : s ∈ declaredStarts rest := by
          simpa [declaredStarts, List.filterMap_cons, hsd] using hs
        have hcur : cursorsFrom d (item :: rest) =
            (match item.duration with | some n => d + n | none => d) ::
              cursorsFrom (match item.duration with | some n => d + n | none => d) rest := by
          simp [cursorsFrom, hsd]
        obtain ⟨c, hc, hle⟩ := declared_le_cursor rest
          (match item.duration with | some n => d + n | none => d) hnnrest s hs2
        exact ⟨c, by rw [hcur]; exact List.mem_cons_of_mem _ hc, hle⟩
      · have hsplit : s = sd ∨ s ∈ declaredStarts rest := by
          have hds : declaredStarts (item :: rest) = sd :: declaredStarts rest := by
            simp [declaredStarts, List.filterMap_cons, hsd]
          rw [hds] at hs
          exact List.mem_cons.mp hs
        have hcur : cursorsFrom d (item :: rest) =
            (match item.duration with | some n => sd + n | none => sd) ::
              cursorsFrom (match item.duration with | some n => sd + n | none => sd) rest := by
          simp [cursorsFrom, hsd]
        rcases hsplit with rfl | hmem
        · refine ⟨(match item.duration with | some n => s + n | none => s), ?_, ?_⟩
          · rw [hcur]
            exact List.mem_cons_self _ _
          · rcases hdu : item.duration with _ | n
            · simp [hdu]
            · have := hnn item (List.mem_cons_self _ _) n hdu
              simp only [hdu]
              omega
        · obtain ⟨c, hc, hle⟩ := declared_le_cursor rest
            (match item.duration with | some n => sd + n | none => sd) hnnrest s hmem
          exact ⟨c, by rw [hcur]; exact List.mem_cons_of_mem _ hc, hle⟩

/-! ## Claim theorems -/

/-- C10: For the empty items list, the layout returns successfully (no
MissingFirstStart or any other error) and produces a RenderData with zero
rows and zero columns, because every validation check lives inside the
per-item loop, which never executes. -/
theorem claim_C10 (tw mw hq : ℚ) (t : String) (md : Option Int) (rs : List String) :
    (processChartData tw mw hq ⟨t, md, rs, []⟩).map (fun rd => rd.rows) = .ok [] ∧
      (processChartData tw mw hq ⟨t, md, rs, []⟩).map (fun rd => rd.cols) = .ok [] := by
  have hres : resolveDates ⟨t, md, rs, []⟩ = .ok (naiveDateMax, naiveDateMin) := by
    simp [resolveDates, resolveLoop]
  have hnil : monthsWalk (snapEnd naiveDateMin) (snapStart naiveDateMax) = [] :=
    monthsWalk_nil _ _ (by decide)
  constructor <;>
    simp [processChartData, hres, Except.map, colsOf, chartMonths, hnil, rowsLoop]

/-- C9 (supporting theorem): two runs of the layout on the same chart differ
at most in the color styles derived from the initial hue — the hue drawn
from `rand::thread_rng()` is the only source of nondeterminism.  The seed
itself is not injectable in the code: `process_chart_data` takes no seed or
generator argument and calls `rand::thread_rng()` internally, which is the
code-level divergence recorded for this claim. -/
theorem claim_C9 (tw mw h1 h2 : ℚ) (cd : ChartData) :
    (processChartData tw mw h1 cd).map (fun rd => { rd with styles := [] }) =
      (processChartData tw mw h2 cd).map (fun rd => { rd with styles := [] }) := by
  cases hres : resolveDates cd with
  | error e => simp [processChartData, hres]
  | ok p =>
      obtain ⟨s, e⟩ := p
      simp [processChartData, hres, Except.map]

/-- C7: For every valid spec, the assembled scene's width equals
`gutter.left + titleWidth + Σ column.width + gutter.right` and its height
equals `gutter.top + |rows| * rowHeight + (legendHeight if the resource
legend is requested, else 0) + gutter.bottom` — with the source's constants
`gutter = (10, 80, 10, 10)`, `rowHeight = 30` and
`legendHeight = resourceGutter.height + rowHeight = 50`, and one row per
item. -/
theorem claim_C7 (tw mw hq : ℚ) (art : Bool) (cd : ChartData) (s e : Int)
    (hres : resolveDates cd = .ok (s, e)) :
    (processChartData tw mw hq cd).map (fun rd => renderDims art rd) =
      .ok (10 + tw + ((colsOf mw s e).map fun col => col.width).sum + 10,
        80 + (cd.items.length : ℚ) * 30 + (if art then 50 else 0) + 10) := by
  simp only [processChartData, hres, Except.map]
  cases art <;> simp [renderDims, Gutter.height, rowsLoop_length] <;> ring_nf <;> simp

/-- C8: For every valid spec with a markedDate present, the layout records
`markerX = titleWidth + leftGutter + (markedDate - startDate).days /
totalDays * totalWidth` with no range check against the resolved interval;
with markedDate absent, no marker offset is recorded. -/
theorem claim_C8 (tw mw hq : ℚ) (cd : ChartData) (s e : Int)
    (hres : resolveDates cd = .ok (s, e)) :
    (processChartData tw mw hq cd).map (fun rd => rd.markedDateOffset) =
      .ok (cd.markedDate.map fun d =>
        tw + 10 + ((d - snapStart s : Int) : ℚ) /
          ((numItemDaysOf s e : Int) : ℚ) * allItemsWidthOf mw s e) := by
  simp only [processChartData, hres, Except.map]
  cases hmd : cd.markedDate <;> simp [hmd]

/-- C1: For every item list accepted by the layout, the row layouter carries
a cursor date and a current resource index across items: a declared
startDate replaces the cursor, the row's xOffset equals `titleWidth +
leftGutter + (cursor - startDate).days / totalDays * totalWidth`, a present
duration advances the cursor by that many days, a present resourceIndex
replaces the carried index, and an item omitting either uses the carried
value — the emitted rows are exactly the spec's state machine `rowsSpec`. -/
theorem claim_C1 (tw mw hq : ℚ) (cd : ChartData) (s e : Int)
    (hv : ValidItems cd.resources.length cd.items)
    (hres : resolveDates cd = .ok (s, e)) :
    (processChartData tw mw hq cd).map (fun rd => rd.rows) =
      .ok (rowsSpec tw 10 (snapStart s) (numItemDaysOf s e) (allItemsWidthOf mw s e)
        (snapStart s) 0 cd.items) := by
  simp only [processChartData, hres, Except.map]
  rw [rowsLoop_eq_rowsSpec]

/-- C5: For every valid spec, the layout emits exactly one Row per input
item, and a row's length field is present if and only if its item has a
duration — in particular an item with duration = 0 yields a task row with
length 0, not a milestone. -/
theorem claim_C5 (tw mw hq : ℚ) (cd : ChartData)
    (hv : ValidItems cd.resources.length cd.items) :
    (processChartData tw mw hq cd).map (fun rd => rd.rows.length) =
        .ok cd.items.length ∧
      ∀ rd, processChartData tw mw hq cd = .ok rd →
        List.Forall₂ (fun item row =>
          (row.length.isSome = item.duration.isSome) ∧
            (item.duration = some 0 → row.length = some 0)) cd.items rd.rows := by
  obtain ⟨s, e, hres⟩ := resolveDates_isOk cd hv
  constructor
  · simp [processChartData, hres, Except.map, rowsLoop_length]
  · intro rd hrd
    obtain ⟨_, _, _, _, _, _, _, _, _, _, _, _, hrows, _⟩ :=
      processChartData_fields tw mw hq cd s e rd hres hrd
    rw [hrows]
    refine (rowsLoop_forall₂ tw 10 (snapStart s) (numItemDaysOf s e)
      (allItemsWidthOf mw s e) cd.items (snapStart s) 0).imp ?_
    intro item row hrel
    obtain ⟨_, hlen, _⟩ := hrel
    constructor
    · rw [hlen]
      cases item.duration <;> simp
    · intro h0
      rw [hlen, h0]
      simp

/-- C4: For every resolved interval, the column layouter emits exactly one
Column per calendar month from the snapped startDate to the snapped endDate
inclusive (the year rolling over after December), each with
`widthUnits = maxMonthWidth * daysInMonth / 31`, where daysInMonth is
computed as the day preceding the first day of the next month and always
lies in 28..31. -/
theorem claim_C4 (tw mw hq : ℚ) (cd : ChartData) (s e : Int)
    (hres : resolveDates cd = .ok (s, e)) :
    (processChartData tw mw hq cd).map (fun rd => rd.cols) =
        .ok ((monthsRange (dateYear s) (dateMonth s)
            (monthCount (dateYear s) (dateMonth s) (dateYear e) (dateMonth e))).map
          fun p => { width := mw * ((numDaysInMonth p.1 p.2 : Int) : ℚ) / 31,
                     monthName := monthNameOf p.2 }) ∧
      ∀ y m : Int, 1 ≤ m → m ≤ 12 →
        28 ≤ numDaysInMonth y m ∧ numDaysInMonth y m ≤ 31 := by
  have hbs := ofDays_spec s
  have hbe := ofDays_spec e
  have hcm : chartMonths s e =
      monthsRange (dateYear s) (dateMonth s)
        (monthCount (dateYear s) (dateMonth s) (dateYear e) (dateMonth e)) := by
    rw [chartMonths, snapStart, snapEnd]
    exact monthsWalk_eq_range (dateYear e) (dateMonth e)
      (numDaysInMonth (dateYear e) (dateMonth e)) hbe.1 hbe.2.1
      (by have := numDaysInMonth_bounds (dateYear e) (dateMonth e) hbe.1 hbe.2.1; omega)
      (le_of_eq (numDaysInMonth_eq (dateYear e) (dateMonth e) hbe.1 hbe.2.1))
      (monthCount (dateYear s) (dateMonth s) (dateYear e) (dateMonth e))
      (dateYear s) (dateMonth s) hbs.1 hbs.2.1 rfl
  refine ⟨?_, fun y m h1 h2 => numDaysInMonth_bounds y m h1 h2⟩
  simp only [processChartData, hres, Except.map]
  simp [colsOf, hcm]

/-- C2 (amended): For every non-empty item list, the layout fails with
MissingFirstStart exactly when the first item omits startDate; fails with
MissingFirstResource exactly when the first item (having a startDate) omits
resourceIndex; fails with ResourceIndexOutOfRange exactly when the first
item has both a startDate and a resourceIndex and some item declares a
resourceIndex ≥ |resources|; and with none of these conditions it returns a
RenderData without error. -/
theorem claim_C2 (tw mw hq : ℚ) (cd : ChartData) (first : ItemData)
    (rest : List ItemData) (hitems : cd.items = first :: rest) :
    (processChartData tw mw hq cd = .error .missingFirstStart ↔
        first.startDate = none) ∧
      (processChartData tw mw hq cd = .error .missingFirstResource ↔
        first.startDate.isSome = true ∧ first.resourceIndex = none) ∧
      (processChartData tw mw hq cd = .error .resourceIndexOutOfRange ↔
        first.startDate.isSome = true ∧ first.resourceIndex.isSome = true ∧
          ∃ item ∈ cd.items, ∃ r, item.resourceIndex = some r ∧
            cd.resources.length ≤ r) ∧
      ((∃ rd, processChartData tw mw hq cd = .ok rd) ↔
        ValidItems cd.resources.length cd.items) := by
  have herr : ∀ e2, processChartData tw mw hq cd = .error e2 ↔
      resolveDates cd = .error e2 :=
    fun e2 => processChartData_error_iff tw mw hq cd e2
  have hok := processChartData_ok_iff tw mw hq cd
  rcases hsd : first.startDate with _ | sd
  · -- scenario: missing first start
    have hres : resolveDates cd = .error .missingFirstStart := by
      simp [resolveDates, hitems, resolveLoop, resolveItem, hsd]
    refine ⟨by simp [herr, hres, hsd], by simp [herr, hres, hsd], by simp [herr, hres, hsd],
      ?_⟩
    rw [hok]
    constructor
    · rintro ⟨p, hp⟩
      rw [hres] at hp
      cases hp
    · rintro ⟨hfi, _⟩
      rw [hitems] at hfi
      simp [FirstItemOk, hsd] at hfi
  · rcases hrr : first.resourceIndex with _ | r
    · -- scenario: missing first resource
      have hres : resolveDates cd = .error .missingFirstResource := by
        cases hd : first.duration <;>
          simp [resolveDates, hitems, resolveLoop, resolveItem, hsd, hrr, hd]
      refine ⟨by simp [herr, hres, hsd], by simp [herr, hres, hsd, hrr],
        by simp [herr, hres, hrr], ?_⟩
      rw [hok]
      constructor
      · rintro ⟨p, hp⟩
        rw [hres] at hp
        cases hp
      · rintro ⟨hfi, _⟩
        rw [hitems] at hfi
        simp [FirstItemOk, hrr] at hfi
    · by_cases hlt : r < cd.resources.length
      · by_cases hrok : ResourcesOk cd.resources.length rest
        · -- scenario: no error
          have hvall : ValidItems cd.resources.length cd.items := by
            refine ⟨by rw [hitems]; exact ⟨by simp [hsd], by simp [hrr]⟩, ?_⟩
            rw [hitems]
            intro it hit r2 hr2
            rcases List.mem_cons.mp hit with rfl | hit
            · rw [hrr] at hr2
              cases hr2
              exact hlt
            · exact hrok it hit r2 hr2
          have hres := resolveDates_ok_char cd hvall
          have hnotbad : ¬∃ item ∈ cd.items, ∃ r2, item.resourceIndex = some r2 ∧
              cd.resources.length ≤ r2 := by
            rintro ⟨it, hit, r2, hr2, hge⟩
            have := hvall.2 it hit r2 hr2
            omega
          refine ⟨by simp [herr, hres], by simp [herr, hres], ?_, ?_⟩
          · rw [herr]
            constructor
            · intro hcontra
              rw [hres] at hcontra
              cases hcontra
            · rintro ⟨_, _, hbad⟩
              exact absurd hbad hnotbad
          · rw [hok]
            exact ⟨fun _ => hvall, fun _ => ⟨_, hres⟩⟩
        · -- scenario: a later item is out of range
          have hloop := fun s e d =>
            resolveLoop_err cd.resources.length rest 1 s e d (by omega) hrok
          have hres : resolveDates cd = .error .resourceIndexOutOfRange := by
            cases hd : first.duration <;>
              simp [resolveDates, hitems, resolveLoop, resolveItem, hsd, hrr, hd,
                (show ¬r ≥ cd.resources.length by omega), hloop]
          obtain ⟨it, hit, r2, hr2, hge⟩ := (not_resourcesOk_iff _ _).mp hrok
          refine ⟨by simp [herr, hres, hsd], by simp [herr, hres, hrr],
            ?_, ?_⟩
          · rw [herr, hres]
            simp only [hsd, hrr]
            constructor
            · intro _
              exact ⟨rfl, rfl, it, by rw [hitems]; exact List.mem_cons_of_mem _ hit,
                r2, hr2, hge⟩
            · intro _
              trivial
          · rw [hok]
            constructor
            · rintro ⟨p, hp⟩
              rw [hres] at hp
              cases hp
            · rintro ⟨_, hrall⟩
              rw [hitems] at hrall
              have := hrall it (List.mem_cons_of_mem _ hit) r2 hr2
              omega
      · -- scenario: the first item's resource index is out of range
        have hres : resolveDates cd = .error .resourceIndexOutOfRange := by
          cases hd : first.duration <;>
            simp [resolveDates, hitems, resolveLoop, resolveItem, hsd, hrr, hd,
              (show r ≥ cd.resources.length by omega)]
        refine ⟨by simp [herr, hres, hsd], by simp [herr, hres, hrr], ?_, ?_⟩
        · rw [herr, hres]
          simp only [hsd, hrr]
          constructor
          · intro _
            exact ⟨rfl, rfl, first, by rw [hitems]; exact List.mem_cons_self _ _,
              r, hrr, by omega⟩
          · intro _
            trivial
        · rw [hok]
          constructor
          · rintro ⟨p, hp⟩
            rw [hres] at hp
            cases hp
          · rintro ⟨_, hrall⟩
            rw [hitems] at hrall
            have := hrall first (List.mem_cons_self _ _) r hrr
            omega

/-- A chart whose first item omits `startDate` but declares a resource index
that is out of range for the empty resource list. -/
def chartNoFirstStart : ChartData :=
  ⟨"P", none, [], [⟨"A", none, none, some 0, none⟩]⟩

/-- C2 counterexample: the claim's third biconditional — "fails with
ResourceIndexOutOfRange exactly when some item declares a resourceIndex ≥
|resources|" — fails on a chart whose first item omits startDate while also
declaring an out-of-range resource index: the condition holds, but the
layout fails with MissingFirstStart instead. -/
theorem claim_C2_counterexample :
    (∃ item ∈ chartNoFirstStart.items, ∃ r, item.resourceIndex = some r ∧
        chartNoFirstStart.resources.length ≤ r) ∧
      processChartData 210 80 0 chartNoFirstStart = .error .missingFirstStart ∧
      processChartData 210 80 0 chartNoFirstStart ≠ .error .resourceIndexOutOfRange := by
  refine ⟨⟨⟨"A", none, none, some 0, none⟩, by simp [chartNoFirstStart], 0, rfl,
    by simp [chartNoFirstStart]⟩, ?_, ?_⟩
  · simp [processChartData, chartNoFirstStart, resolveDates, resolveLoop, resolveItem]
  · simp [processChartData, chartNoFirstStart, resolveDates, resolveLoop, resolveItem]

/-- The snapped start is the first day of its month. -/
theorem snapStart_fields (z : Int) :
    dateYear (snapStart z) = dateYear z ∧ dateMonth (snapStart z) = dateMonth z ∧
      dateDay (snapStart z) = 1 := by
  obtain ⟨hb1, hb2, _⟩ := ofDays_spec z
  exact ofDays_monthStart (dateYear z) (dateMonth z) hb1 hb2

/-- The snapped end is the last day of its month. -/
theorem snapEnd_fields (z : Int) :
    dateYear (snapEnd z) = dateYear z ∧ dateMonth (snapEnd z) = dateMonth z ∧
      dateDay (snapEnd z) = numDaysInMonth (dateYear z) (dateMonth z) := by
  obtain ⟨hb1, hb2, _⟩ := ofDays_spec z
  have hnd := numDaysInMonth_eq (dateYear z) (dateMonth z) hb1 hb2
  have hndb := numDaysInMonth_bounds (dateYear z) (dateMonth z) hb1 hb2
  have hday := toDays_day (dateYear z) (dateMonth z)
    (numDaysInMonth (dateYear z) (dateMonth z))
  have hsz : snapEnd z = toDays (dateYear z) (dateMonth z)
      (numDaysInMonth (dateYear z) (dateMonth z)) := rfl
  have hs := month_sandwich (dateYear z) (dateMonth z) (snapEnd z) hb1 hb2
    (by omega) (by omega)
  refine ⟨hs.1, hs.2.1, ?_⟩
  have := hs.2.2
  omega

/-- C3: For every valid item list, the resolved interval's startDate is the
first day of the month of the earliest declared item startDate (the minimum
over all declared start dates wins, even when a later startDate jumps
backwards relative to the carried cursor), and its endDate is the last day
of the month of the latest cursor position reached after adding
durations. -/
theorem claim_C3 (cd : ChartData) (s e : Int)
    (hne : cd.items ≠ [])
    (hv : ValidItems cd.resources.length cd.items)
    (hrange : DatesInRange cd.items)
    (hres : resolveDates cd = .ok (s, e)) :
    (∃ m0, m0 ∈ declaredStarts cd.items ∧ (∀ x ∈ declaredStarts cd.items, m0 ≤ x) ∧
        s = m0) ∧
      (∃ c0, c0 ∈ cursorsFrom naiveDateMin cd.items ∧
        (∀ x ∈ cursorsFrom naiveDateMin cd.items, x ≤ c0) ∧ e = c0) ∧
      dateYear (snapStart s) = dateYear s ∧ dateMonth (snapStart s) = dateMonth s ∧
      dateDay (snapStart s) = 1 ∧
      dateYear (snapEnd e) = dateYear e ∧ dateMonth (snapEnd e) = dateMonth e ∧
      dateDay (snapEnd e) = numDaysInMonth (dateYear e) (dateMonth e) := by
  have hchar := resolveDates_ok_char cd hv
  rw [hres] at hchar
  obtain ⟨hseq, heeq⟩ : s = (declaredStarts cd.items).foldl
        (fun a b => if b < a then b else a) naiveDateMax ∧
      e = (cursorsFrom naiveDateMin cd.items).foldl
        (fun a b => if a < b then b else a) naiveDateMin := by
    have := Except.ok.inj hchar
    exact ⟨congrArg Prod.fst this, congrArg Prod.snd this⟩
  obtain ⟨first, rest, hitems⟩ : ∃ first rest, cd.items = first :: rest := by
    cases hcase : cd.items with
    | nil => exact absurd hcase hne
    | cons a l => exact ⟨a, l, rfl⟩
  obtain ⟨sd, hsd⟩ : ∃ sd, first.startDate = some sd := by
    have hfi := hv.1
    rw [hitems] at hfi
    obtain ⟨h1, _⟩ := hfi
    exact Option.isSome_iff_exists.mp h1
  have hsdmem : sd ∈ declaredStarts cd.items := by
    rw [hitems]
    simp [declaredStarts, List.filterMap_cons, hsd]
  have hcmem : ∀ c1 ∈ cursorsFrom naiveDateMin cd.items, True := fun _ _ => trivial
  obtain ⟨hmin1, _, hmin3⟩ := foldl_min_spec (declaredStarts cd.items) naiveDateMax
  obtain ⟨hmax1, _, hmax3⟩ := foldl_max_spec (cursorsFrom naiveDateMin cd.items) naiveDateMin
  refine ⟨⟨s, ?_, by rw [hseq]; exact hmin3, rfl⟩, ⟨e, ?_, by rw [heeq]; exact hmax3, rfl⟩,
    (snapStart_fields s).1, (snapStart_fields s).2.1, (snapStart_fields s).2.2,
    (snapEnd_fields e).1, (snapEnd_fields e).2.1, (snapEnd_fields e).2.2⟩
  · -- the minimum is attained at a declared start
    rw [hseq]
    rcases hmin1 with h | h
    · -- the fold never moved: the first declared start equals NaiveDate::MAX
      have hle := hmin3 sd hsdmem
      have hub := hrange.1 sd hsdmem
      have : sd = (declaredStarts cd.items).foldl
          (fun a b => if b < a then b else a) naiveDateMax := by omega
      rw [← this]
      exact hsdmem
    · exact h
  · -- the maximum is attained at a cursor position
    rw [heeq]
    have hcons : cursorsFrom naiveDateMin cd.items ≠ [] := by
      rw [hitems]
      simp [cursorsFrom]
    obtain ⟨c1, hc1⟩ := List.exists_mem_of_ne_nil _ hcons
    rcases hmax1 with h | h
    · have hge := hmax3 c1 hc1
      have hlb := hrange.2 c1 hc1
      have : c1 = (cursorsFrom naiveDateMin cd.items).foldl
          (fun a b => if a < b then b else a) naiveDateMin := by omega
      rw [← this]
      exact hc1
    · exact h

/-- Under nonnegative durations, the snapped interval of a valid non-empty
chart is non-degenerate: the number of walked item days is positive, and so
is the accumulated width when `maxMonthWidth > 0`. -/
theorem totals_pos (mw : ℚ) (cd : ChartData) (s e : Int)
    (hne : cd.items ≠ [])
    (hv : ValidItems cd.resources.length cd.items)
    (hrange : DatesInRange cd.items)
    (hnn : ∀ item ∈ cd.items, ∀ n, item.duration = some n → 0 ≤ n)
    (hmw : 0 < mw)
    (hres : resolveDates cd = .ok (s, e)) :
    0 < numItemDaysOf s e ∧ 0 < allItemsWidthOf mw s e := by
  -- identify `s` and `e` with the resolver's folds
  have hchar := resolveDates_ok_char cd hv
  rw [hres] at hchar
  obtain ⟨hseq, heeq⟩ : s = (declaredStarts cd.items).foldl
        (fun a b => if b < a then b else a) naiveDateMax ∧
      e = (cursorsFrom naiveDateMin cd.items).foldl
        (fun a b => if a < b then b else a) naiveDateMin := by
    have := Except.ok.inj hchar
    exact ⟨congrArg Prod.fst this, congrArg Prod.snd this⟩
  obtain ⟨first, rest, hitems⟩ : ∃ first rest, cd.items = first :: rest := by
    cases hcase : cd.items with
    | nil => exact absurd hcase hne
    | cons a l => exact ⟨a, l, rfl⟩
  obtain ⟨sd, hsd⟩ : ∃ sd, first.startDate = some sd := by
    have hfi := hv.1
    rw [hitems] at hfi
    exact Option.isSome_iff_exists.mp hfi.1
  have hsdmem : sd ∈ declaredStarts cd.items := by
    rw [hitems]
    simp [declaredStarts, List.filterMap_cons, hsd]
  obtain ⟨hmin1, _, hmin3⟩ := foldl_min_spec (declaredStarts cd.items) naiveDateMax
  obtain ⟨_, _, hmax3⟩ := foldl_max_spec (cursorsFrom naiveDateMin cd.items) naiveDateMin
  -- s is a declared start, dominated by some cursor, dominated by e
  have hsmem : s ∈ declaredStarts cd.items := by
    rw [hseq]
    rcases hmin1 with h | h
    · have hle := hmin3 sd hsdmem
      have hub := hrange.1 sd hsdmem
      have heq2 : sd = (declaredStarts cd.items).foldl
          (fun a b => if b < a then b else a) naiveDateMax := by omega
      rw [← heq2]
      exact hsdmem
    · exact h
  obtain ⟨c, hcmem, hsc⟩ := declared_le_cursor cd.items naiveDateMin hnn s hsmem
  have hce : c ≤ e := by
    rw [heeq]
    exact hmax3 c hcmem
  have hse : s ≤ e := le_trans hsc hce
  -- the walked months are a non-empty list of real months
  have hbs := ofDays_spec s
  have hbe := ofDays_spec e
  have hlexse : dateYear s < dateYear e ∨
      (dateYear s = dateYear e ∧ dateMonth s ≤ dateMonth e) := by
    by_contra hcon
    have hlex2 : dateYear e < dateYear s ∨
        (dateYear e = dateYear s ∧ dateMonth e < dateMonth s) := by omega
    have hb' : 1 ≤ nextMonthM (dateMonth e) ∧ nextMonthM (dateMonth e) ≤ 12 := by
      simp only [nextMonthM]
      omega
    have hcases : (nextMonthY (dateYear e) (dateMonth e) < dateYear s ∨
          (nextMonthY (dateYear e) (dateMonth e) = dateYear s ∧
            nextMonthM (dateMonth e) < dateMonth s)) ∨
        (nextMonthY (dateYear e) (dateMonth e) = dateYear s ∧
          nextMonthM (dateMonth e) = dateMonth s) := by
      simp only [nextMonthY, nextMonthM]
      split_ifs <;> omega
    have hle : toDays (nextMonthY (dateYear e) (dateMonth e)) (nextMonthM (dateMonth e)) 1
        ≤ toDays (dateYear s) (dateMonth s) 1 := by
      rcases hcases with hlt2 | ⟨hy, hm⟩
      · exact le_of_lt (monthStart_lt _ _ _ _ hb'.1 hb'.2 hbs.1 hbs.2.1 hlt2)
      · rw [hy, hm]
    have h1 := snapStart_le s
    have h3 : snapStart s = toDays (dateYear s) (dateMonth s) 1 := rfl
    have h2 := hbe.2.2.2.2.2
    omega
  have hcm : chartMonths s e =
      monthsRange (dateYear s) (dateMonth s)
        (monthCount (dateYear s) (dateMonth s) (dateYear e) (dateMonth e)) := by
    rw [chartMonths, snapStart, snapEnd]
    exact monthsWalk_eq_range (dateYear e) (dateMonth e)
      (numDaysInMonth (dateYear e) (dateMonth e)) hbe.1 hbe.2.1
      (by have := numDaysInMonth_bounds (dateYear e) (dateMonth e) hbe.1 hbe.2.1; omega)
      (le_of_eq (numDaysInMonth_eq (dateYear e) (dateMonth e) hbe.1 hbe.2.1))
      (monthCount (dateYear s) (dateMonth s) (dateYear e) (dateMonth e))
      (dateYear s) (dateMonth s) hbs.1 hbs.2.1 rfl
  have hn1 : 1 ≤ monthCount (dateYear s) (dateMonth s) (dateYear e) (dateMonth e) := by
    simp only [monthCount]
    omega
  have hmonths : ∀ p ∈ chartMonths s e, 1 ≤ p.2 ∧ p.2 ≤ 12 := by
    rw [hcm]
    exact monthsRange_month_bounds _ (dateYear s) (dateMonth s) hbs.1 hbs.2.1
  have hnonempty : chartMonths s e ≠ [] := by
    rw [hcm]
    cases hcount : monthCount (dateYear s) (dateMonth s) (dateYear e) (dateMonth e) with
    | zero => omega
    | succ k => simp [monthsRange]
  constructor
  · refine List.sum_pos _ ?_ (by simpa using hnonempty)
    intro x hx
    obtain ⟨p, hp, rfl⟩ := List.mem_map.mp hx
    have hb := hmonths p hp
    have := numDaysInMonth_bounds p.1 p.2 hb.1 hb.2
    omega
  · refine List.sum_pos _ ?_ (by simpa using hnonempty)
    intro x hx
    obtain ⟨p, hp, rfl⟩ := List.mem_map.mp hx
    have hb := hmonths p hp
    have hd := numDaysInMonth_bounds p.1 p.2 hb.1 hb.2
    have hcast : (0 : ℚ) < ((numDaysInMonth p.1 p.2 : Int) : ℚ) := by
      exact_mod_cast (by omega : (0 : Int) < numDaysInMonth p.1 p.2)
    positivity

/-- C6 (amended): For every row derived from an item with a strictly
positive duration — provided every duration is nonnegative, as the spec's
data model requires, and `maxMonthWidth > 0` — the emitted length is
strictly greater than zero. -/
theorem claim_C6 (tw mw hq : ℚ) (cd : ChartData) (s e : Int)
    (hv : ValidItems cd.resources.length cd.items)
    (hrange : DatesInRange cd.items)
    (hnn : ∀ item ∈ cd.items, ∀ n, item.duration = some n → 0 ≤ n)
    (hmw : 0 < mw)
    (hres : resolveDates cd = .ok (s, e)) :
    ∀ rd, processChartData tw mw hq cd = .ok rd →
      List.Forall₂ (fun item row => ∀ n, item.duration = some n → 0 < n →
        ∃ L, row.length = some L ∧ 0 < L) cd.items rd.rows := by
  intro rd hrd
  obtain ⟨_, _, _, _, _, _, _, _, _, _, _, _, hrows, _⟩ :=
    processChartData_fields tw mw hq cd s e rd hres hrd
  rw [hrows]
  cases hcase : cd.items with
  | nil => simp [hcase, rowsLoop]
  | cons first rest =>
      rw [← hcase]
      have hne : cd.items ≠ [] := by
        rw [hcase]
        simp
      obtain ⟨htd, htw⟩ := totals_pos mw cd s e hne hv hrange hnn hmw hres
      refine (rowsLoop_forall₂ tw 10 (snapStart s) (numItemDaysOf s e)
        (allItemsWidthOf mw s e) cd.items (snapStart s) 0).imp ?_
      intro item row hrel
      obtain ⟨_, hlen, _⟩ := hrel
      intro n hn hpos
      refine ⟨(n : ℚ) / ((numItemDaysOf s e : Int) : ℚ) * allItemsWidthOf mw s e,
        by rw [hlen, hn]; rfl, ?_⟩
      have hc1 : (0 : ℚ) < (n : ℚ) := by exact_mod_cast hpos
      have hc2 : (0 : ℚ) < ((numItemDaysOf s e : Int) : ℚ) := by exact_mod_cast htd
      positivity

/-- A chart with a single zero-duration item. -/
def chartZeroDuration : ChartData :=
  ⟨"P", none, ["R"], [⟨"A", some 0, some (toDays 2023 1 5), some 0, none⟩]⟩

/-- C6 counterexample: a row whose item has duration 0 is emitted with
length 0, so "for every row derived from an item that has a duration, the
emitted length is strictly greater than zero" fails as stated. -/
theorem claim_C6_counterexample :
    (processChartData 210 80 0 chartZeroDuration).map
        (fun rd => rd.rows.map fun row => row.length) = .ok [some 0] ∧
      ¬∀ rd, processChartData 210 80 0 chartZeroDuration = .ok rd →
        ∀ row ∈ rd.rows, ∀ L, row.length = some L → 0 < L := by
  have hres : resolveDates chartZeroDuration = .ok (toDays 2023 1 5, toDays 2023 1 5) := by
    decide
  have hwalk : chartMonths (toDays 2023 1 5) (toDays 2023 1 5) = [(2023, 1)] := by
    rw [chartMonths, monthsWalk_cons _ _ (by decide), monthsWalk_nil _ _ (by decide)]
    decide
  have hmap : (processChartData 210 80 0 chartZeroDuration).map
      (fun rd => rd.rows.map fun row => row.length) = .ok [some 0] := by
    simp only [processChartData, hres, Except.map]
    simp [chartZeroDuration, rowsLoop]
  refine ⟨hmap, fun hall => ?_⟩
  cases hproc : processChartData 210 80 0 chartZeroDuration with
  | error e2 =>
      rw [hproc] at hmap
      cases hmap
  | ok rd =>
      rw [hproc] at hmap
      simp only [Except.map] at hmap
      have hrows := Except.ok.inj hmap
      cases hrl : rd.rows with
      | nil =>
          rw [hrl] at hrows
          cases hrows
      | cons row tail =>
          cases tail with
          | nil =>
              rw [hrl] at hrows
              simp only [List.map_cons, List.map_nil] at hrows
              have hlen0 : row.length = some 0 := (List.cons.inj hrows).1
              have := hall rd hproc row (by rw [hrl]; exact List.mem_cons_self _ _) 0 hlen0
              exact absurd this (by norm_num)
          | cons b tail2 =>
              rw [hrl] at hrows
              simp at hrows

/-! ## Concrete evaluations -/

/-- A one-item chart used to exercise the layout at a concrete input:
duration 10, start 2023-01-05, resource 0. -/
def testItem : ItemData := ⟨"A", some 10, some (toDays 2023 1 5), some 0, none⟩

/-- A valid single-task chart. -/
def testChart : ChartData := ⟨"P", none, ["Eng"], [testItem]⟩

/-- The same chart with a marked date far outside the resolved interval. -/
def testChartMarked : ChartData := ⟨"P", some (toDays 2022 6 1), ["Eng"], [testItem]⟩

/-- C1 witness: the row characterization at the concrete chart. -/
theorem claim_C1_witness :
    (processChartData 210 80 0 testChart).map (fun rd => rd.rows) =
      .ok (rowsSpec 210 10 (snapStart (toDays 2023 1 5))
        (numItemDaysOf (toDays 2023 1 5) (toDays 2023 1 15))
        (allItemsWidthOf 80 (toDays 2023 1 5) (toDays 2023 1 15))
        (snapStart (toDays 2023 1 5)) 0 testChart.items) :=
  claim_C1 210 80 0 testChart (toDays 2023 1 5) (toDays 2023 1 15) (by decide) (by decide)

/-- C2 witness: the error/success characterization at the concrete chart. -/
theorem claim_C2_witness :
    (processChartData 210 80 0 testChart = .error .missingFirstStart ↔
        testItem.startDate = none) ∧
      (processChartData 210 80 0 testChart = .error .missingFirstResource ↔
        testItem.startDate.isSome = true ∧ testItem.resourceIndex = none) ∧
      (processChartData 210 80 0 testChart = .error .resourceIndexOutOfRange ↔
        testItem.startDate.isSome = true ∧ testItem.resourceIndex.isSome = true ∧
          ∃ item ∈ testChart.items, ∃ r, item.resourceIndex = some r ∧
            testChart.resources.length ≤ r) ∧
      ((∃ rd, processChartData 210 80 0 testChart = .ok rd) ↔
        ValidItems testChart.resources.length testChart.items) :=
  claim_C2 210 80 0 testChart testItem [] rfl

/-- C3 witness: the resolved interval and snapping at the concrete chart. -/
theorem claim_C3_witness :
    (∃ m0, m0 ∈ declaredStarts testChart.items ∧
        (∀ x ∈ declaredStarts testChart.items, m0 ≤ x) ∧ toDays 2023 1 5 = m0) ∧
      (∃ c0, c0 ∈ cursorsFrom naiveDateMin testChart.items ∧
        (∀ x ∈ cursorsFrom naiveDateMin testChart.items, x ≤ c0) ∧
          toDays 2023 1 15 = c0) ∧
      dateYear (snapStart (toDays 2023 1 5)) = dateYear (toDays 2023 1 5) ∧
      dateMonth (snapStart (toDays 2023 1 5)) = dateMonth (toDays 2023 1 5) ∧
      dateDay (snapStart (toDays 2023 1 5)) = 1 ∧
      dateYear (snapEnd (toDays 2023 1 15)) = dateYear (toDays 2023 1 15) ∧
      dateMonth (snapEnd (toDays 2023 1 15)) = dateMonth (toDays 2023 1 15) ∧
      dateDay (snapEnd (toDays 2023 1 15)) =
        numDaysInMonth (dateYear (toDays 2023 1 15)) (dateMonth (toDays 2023 1 15)) :=
  claim_C3 testChart (toDays 2023 1 5) (toDays 2023 1 15)
    (by decide) (by decide) (by decide) (by decide)

/-- C4 witness: the column characterization at the concrete chart. -/
theorem claim_C4_witness :
    (processChartData 210 80 0 testChart).map (fun rd => rd.cols) =
        .ok ((monthsRange (dateYear (toDays 2023 1 5)) (dateMonth (toDays 2023 1 5))
            (monthCount (dateYear (toDays 2023 1 5)) (dateMonth (toDays 2023 1 5))
              (dateYear (toDays 2023 1 15)) (dateMonth (toDays 2023 1 15)))).map
          fun p => { width := 80 * ((numDaysInMonth p.1 p.2 : Int) : ℚ) / 31,
                     monthName := monthNameOf p.2 }) ∧
      ∀ y m : Int, 1 ≤ m → m ≤ 12 →
        28 ≤ numDaysInMonth y m ∧ numDaysInMonth y m ≤ 31 :=
  claim_C4 210 80 0 testChart (toDays 2023 1 5) (toDays 2023 1 15) (by decide)

/-- C5 witness: one row per item, length iff duration, at the concrete chart. -/
theorem claim_C5_witness :
    (processChartData 210 80 0 testChart).map (fun rd => rd.rows.length) =
        .ok testChart.items.length ∧
      ∀ rd, processChartData 210 80 0 testChart = .ok rd →
        List.Forall₂ (fun item row =>
          (row.length.isSome = item.duration.isSome) ∧
            (item.duration = some 0 → row.length = some 0)) testChart.items rd.rows :=
  claim_C5 210 80 0 testChart (by decide)

/-- C6 witness: positive durations give positive lengths at the concrete chart. -/
theorem claim_C6_witness :
    ∃ rd, processChartData 210 80 0 testChart = .ok rd ∧
      List.Forall₂ (fun item row => ∀ n, item.duration = some n → 0 < n →
        ∃ L, row.length = some L ∧ 0 < L) testChart.items rd.rows := by
  have hres : resolveDates testChart = .ok (toDays 2023 1 5, toDays 2023 1 15) := by
    decide
  cases hproc : processChartData 210 80 0 testChart with
  | error e2 => simp [processChartData, hres] at hproc
  | ok rd =>
      exact ⟨rd, rfl,
        claim_C6 210 80 0 testChart (toDays 2023 1 5) (toDays 2023 1 15)
          (by decide) (by decide)
          (by
            intro item hitem n hn
            have hi : item = testItem := by simpa [testChart] using hitem
            subst hi
            have h10 : (10 : Int) = n := by simpa [testItem] using hn
            omega)
          (by norm_num) hres rd hproc⟩

/-- C7 witness: the scene dimensions at the concrete chart. -/
theorem claim_C7_witness :
    (processChartData 210 80 0 testChart).map (fun rd => renderDims true rd) =
      .ok (10 + 210 + ((colsOf 80 (toDays 2023 1 5) (toDays 2023 1 15)).map
            fun col => col.width).sum + 10,
        80 + (testChart.items.length : ℚ) * 30 + (if true then 50 else 0) + 10) :=
  claim_C7 210 80 0 true testChart (toDays 2023 1 5) (toDays 2023 1 15) (by decide)

/-- C8 witness: the marker offset formula at a chart whose marked date lies
outside the resolved interval. -/
theorem claim_C8_witness :
    (processChartData 210 80 0 testChartMarked).map (fun rd => rd.markedDateOffset) =
      .ok (testChartMarked.markedDate.map fun d =>
        210 + 10 + ((d - snapStart (toDays 2023 1 5) : Int) : ℚ) /
          ((numItemDaysOf (toDays 2023 1 5) (toDays 2023 1 15) : Int) : ℚ) *
          allItemsWidthOf 80 (toDays 2023 1 5) (toDays 2023 1 15)) :=
  claim_C8 210 80 0 testChartMarked (toDays 2023 1 5) (toDays 2023 1 15) (by decide)

end GanttChart
